import Mathlib

/-!
# A Lean model of the lr-learning grammar-to-table-to-parse pipeline

This file embeds, as executable Lean definitions, the core of the
lr-learning repository: the BNF grammar model and parser
(`parseBnf.ts`), the FIRST(βa) helper and state-key computations of the
LR(0)/LR(1) item-set builders (`interface/itemSet.ts`,
`interface/lr1ItemSet.ts`), the LR(0) and LR(1) transition-table
builders (`makeTable.ts`, `makeTableLR1.ts` and the symbol-grouped
variant), the `MainPage` validation gate, and the shift-reduce parse
driver (`parseProgram.ts`).  Theorems about these definitions settle the
stated properties of each component.

Modelling conventions, used throughout:

* `encryptSha256` is modelled as an injective function: a hash value is
  represented by the structure of its pre-image (the repository compares
  hashes only for equality, and SHA-256 outputs are fixed-length and
  comma-free, so joining hashes with separators is represented by a
  Lean list of the structured pre-images).
* JavaScript objects used as string-keyed maps are modelled as
  association lists (`List (String × _)`) with first-match lookup and
  replace-or-append update; JS `Set` insertion is add-if-absent at the
  end, preserving insertion order.
* JavaScript exceptions are modelled with `Except`; the non-terminating
  `while (true)` loop of the parse driver is modelled with an explicit
  step function iterated on fuel.
* String operations (`split`, `trim`, `startsWith`, …) are implemented
  over `List Char` so that all definitions reduce inside the kernel.
-/

namespace LRL

/-! ## JavaScript-style string helpers -/

/-- Whitespace characters relevant to `trim` and to the `/\s+/` split of
`parseBnf.ts` (space, tab, CR, LF). -/
def isWsChar (c : Char) : Bool :=
  c == ' ' || c == '\t' || c == '\r' || c == '\n'

/-- JS `String.prototype.trim`. -/
def jsTrim (s : String) : String :=
  ⟨((s.data.dropWhile isWsChar).reverse.dropWhile isWsChar).reverse⟩

/-- JS `s.split(c)` for a one-character separator. -/
def jsSplitChar (c : Char) (s : String) : List String :=
  (s.data.splitOn c).map (⟨·⟩)

/-- JS `s.split("->")`: split on every occurrence of the two-character
arrow, scanning left to right. -/
def splitArrowAux : List Char → List (List Char)
  | [] => [[]]
  | '-' :: '>' :: rest => [] :: splitArrowAux rest
  | c :: rest =>
    match splitArrowAux rest with
    | [] => [[c]]
    | g :: gs => (c :: g) :: gs

def jsSplitArrow (s : String) : List String :=
  (splitArrowAux s.data).map (⟨·⟩)

/-- JS `s.split(/\s+/)` on an already-trimmed string: split on runs of
whitespace; the empty string yields `[""]` (as in JS). -/
def jsSplitWs (s : String) : List String :=
  let parts := ((s.data.map (fun c => if isWsChar c then ' ' else c)).splitOn ' ').filter
    (· ≠ [])
  if parts = [] then [""] else parts.map (⟨·⟩)

/-- JS `s.startsWith(p)` for a one-character pattern. -/
def jsStartsWithChar (c : Char) (s : String) : Bool :=
  s.data.head? == some c

/-- JS `s.endsWith(p)` for a one-character pattern. -/
def jsEndsWithChar (c : Char) (s : String) : Bool :=
  s.data.getLast? == some c

/-- JS `s.includes(c)` for a one-character pattern. -/
def jsIncludesChar (c : Char) (s : String) : Bool :=
  s.data.contains c

/-- JS `s.slice(1, -1)`. -/
def jsSliceInner (s : String) : String :=
  ⟨(s.data.drop 1).dropLast⟩

/-- JS `s.slice(0, -1)`. -/
def jsDropLast1 (s : String) : String :=
  ⟨s.data.dropLast⟩

/-- JS `Set<string>` add: append if absent (insertion order preserved). -/
def setAdd (l : List String) (s : String) : List String :=
  if s ∈ l then l else l ++ [s]

/-- First-match lookup in a JS object used as a map. -/
def alistGet {α : Type} (l : List (String × α)) (k : String) : Option α :=
  (l.find? (fun p => p.1 == k)).map (·.2)

/-- JS object key assignment: replace the value of the first matching
key, or append a new binding. -/
def alistSet {α : Type} (l : List (String × α)) (k : String) (v : α) :
    List (String × α) :=
  match l with
  | [] => [(k, v)]
  | (k', v') :: rest =>
    if k' == k then (k', v) :: rest else (k', v') :: alistSet rest k v

/-- JS `Array.prototype.findIndex`. -/
def jsFindIndex {α : Type} (p : α → Bool) : List α → Option Nat
  | [] => none
  | x :: xs => if p x then some 0 else (jsFindIndex p xs).map (· + 1)

/-! ## Grammar data model (`interface/bnf.ts`)

`BNFElement` carries a `wildcard` field in the source, but it is never
assigned by the parser (always `""`), so it is omitted here; the element
hash `` `${type}|${value}|${wildcard}` `` therefore determines exactly
`(type, value)`. -/

inductive BNFElemType
  | terminal
  | nonterminal
deriving DecidableEq, Repr

structure BNFElement where
  type : BNFElemType
  value : String
deriving DecidableEq, Repr

/-- A production (`BNFConcatenation`): left-hand nonterminal name plus
the right-hand element sequence.  The `name` constructor argument of the
source (`"line-part"` position tag) is not part of the structural hash
(`getHash` hashes `left` and the element hashes only) and is omitted. -/
structure BNFConcatenation where
  left : String
  elements : List BNFElement
deriving DecidableEq, Repr

/-- A grammar rule (`BNF`): all alternatives of one left-hand
nonterminal, plus the 0-based source line. -/
structure BNF where
  left : String
  right : List BNFConcatenation
  line : Nat
deriving DecidableEq, Repr

structure BNFSet where
  bnfs : List BNF
deriving DecidableEq, Repr

def emptyBNFSet : BNFSet := ⟨[]⟩

def BNFSet.getBNFbyLeft (b : BNFSet) (left : String) : List BNFConcatenation :=
  (b.bnfs.filter (fun bnf => bnf.left == left)).flatMap (·.right)

/-- Modelled from the spec: the final `interface/bnf.ts` is not in the
repository snapshot; the spec describes a "membership test for 'is this
name a declared nonterminal'". -/
def BNFSet.hasNonTerminal (b : BNFSet) (name : String) : Bool :=
  b.bnfs.any (fun bnf => bnf.left == name)

/-- Modelled from the spec: the final `interface/bnf.ts` is not in the
repository snapshot; the spec describes "enumeration of all terminals
appearing anywhere in any production" (a set, i.e. deduplicated). -/
def BNFSet.getAllTerminals (b : BNFSet) : List String :=
  (b.bnfs.flatMap (fun bnf => bnf.right.flatMap (fun c =>
    c.elements.filterMap (fun e =>
      if e.type == .terminal then some e.value else none)))).dedup

/-! ## BNF symbol classification (`parseBnf.ts`, final variant)

`parseRawBnf` classifies each whitespace-separated symbol of a
right-hand alternative.  The source first runs
`if (sym === "ε") { element.setType("terminal"); element.setValue(""); }`
and then an independent `if/else if/.../else` chain every branch of
which assigns both fields again — so the ε assignment is always
overwritten.  The model keeps that dead write visible (`e1`). -/

/-- One thrown error of `parseRawBnf`: `withLine` mirrors messages of
the form `` `${index}\n...` ``, `bare` mirrors the one message thrown
without a line prefix. -/
inductive BnfErr
  | withLine (index : Nat) (msg : String)
  | bare (msg : String)
deriving DecidableEq, Repr

def classifySymbol (sym : String) : Except BnfErr BNFElement :=
  if jsIncludesChar 'ε' sym && sym != "ε" then
    .error (.bare ("無効なεが含まれた右辺式: " ++ sym))
  else
    -- `new BNFElement()` default, then the (dead) ε assignment:
    let e0 : BNFElement := ⟨.nonterminal, ""⟩
    let e1 := if sym == "ε" then { e0 with type := .terminal, value := "" } else e0
    .ok <|
      if jsStartsWithChar '\x27' sym && jsEndsWithChar '\x27' sym then
        { e1 with type := .terminal, value := jsSliceInner sym }
      else if jsEndsWithChar '?' sym then
        { e1 with type := .nonterminal, value := jsDropLast1 sym }
      else if jsEndsWithChar '*' sym then
        { e1 with type := .nonterminal, value := jsDropLast1 sym }
      else if jsEndsWithChar '+' sym then
        { e1 with type := .nonterminal, value := jsDropLast1 sym }
      else
        { e1 with type := .nonterminal, value := sym }

/-! ## FIRST(βa) (`interface/lr1ItemSet.ts`, `computeFirstSeqBetaA`)

`FirstSet` is the JS object `{ [symbol]: Set<string> }`; a `Set<string>`
is modelled as an insertion-ordered duplicate-free list. -/

def FirstSet : Type := List (String × List String)

/-- The body of `computeFirstSeqBetaA`'s `for` loop over β, carrying the
accumulated `out` set. -/
def computeFirstSeqGo (a : String) (firstSet : FirstSet) (epsilonSymbol : String) :
    List BNFElement → List String → List String
  | [], out =>
    -- β exhausted with all symbols nullable: `if (a) out.add(a)`
    if a != "" then setAdd out a else out
  | el :: rest, out =>
    if el.type == .terminal then
      -- `const v = el.getValue(); if (v) out.add(v); return out;`
      if el.value != "" then setAdd out el.value else out
    else
      match alistGet firstSet el.value with
      | none => out  -- `if (!f ...) return out`
      | some f =>
        if f.length == 0 then out  -- `... || f.size === 0`
        else
          let out' := f.foldl (fun o s => if s != epsilonSymbol then setAdd o s else o) out
          if f.contains epsilonSymbol then computeFirstSeqGo a firstSet epsilonSymbol rest out'
          else out'

/-- `computeFirstSeqBetaA` of `interface/lr1ItemSet.ts` (the final
variant, with the explicit empty-β case and the `if (v)` / `if (a)`
guards). -/
def computeFirstSeqBetaA (beta : List BNFElement) (a : String) (firstSet : FirstSet)
    (epsilonSymbol : String) : List String :=
  if beta.length == 0 then (if a != "" then [a] else [])
  else computeFirstSeqGo a firstSet epsilonSymbol beta []

/-- The FIRST(βa) walk exactly as the specification words it: `{a}` for
empty β; otherwise walk β left to right, adding a terminal symbol and
stopping, or adding a nonterminal's FIRST minus epsilon and continuing
only if that nonterminal is nullable (ε ∈ FIRST); the lookahead `a` is
added exactly when every symbol of β is nullable.  (A symbol absent
from the FIRST map is read as having empty FIRST.) -/
def firstSeqClaimGo (a : String) (firstSet : FirstSet) (epsilonSymbol : String) :
    List BNFElement → List String → List String
  | [], out => setAdd out a
  | el :: rest, out =>
    if el.type == .terminal then setAdd out el.value
    else
      let f := (alistGet firstSet el.value).getD []
      let out' := f.foldl (fun o s => if s != epsilonSymbol then setAdd o s else o) out
      if f.contains epsilonSymbol then firstSeqClaimGo a firstSet epsilonSymbol rest out'
      else out'

def firstSeqClaim (beta : List BNFElement) (a : String) (firstSet : FirstSet)
    (epsilonSymbol : String) : List String :=
  match beta with
  | [] => [a]
  | _ => firstSeqClaimGo a firstSet epsilonSymbol beta []

lemma computeFirstSeqGo_eq_claimGo (a : String) (fs : FirstSet) (eps : String)
    (ha : a ≠ "") :
    ∀ (beta : List BNFElement) (out : List String),
      (∀ el ∈ beta, el.type = .terminal → el.value ≠ "") →
      computeFirstSeqGo a fs eps beta out = firstSeqClaimGo a fs eps beta out := by
  intro beta
  induction beta with
  | nil =>
    intro out _
    simp [computeFirstSeqGo, firstSeqClaimGo, ha]
  | cons el rest ih =>
    intro out hterm
    by_cases hty : el.type = .terminal
    · have hv : el.value ≠ "" := hterm el (by simp) hty
      simp [computeFirstSeqGo, firstSeqClaimGo, hty, hv]
    · have hty' : (el.type == BNFElemType.terminal) = false := by
        simp [hty]
      cases hf : alistGet fs el.value with
      | none =>
        simp [computeFirstSeqGo, firstSeqClaimGo, hty', hf, List.contains]
      | some f =>
        cases f with
        | nil =>
          simp [computeFirstSeqGo, firstSeqClaimGo, hty', hf, List.contains]
        | cons x xs =>
          have hlen : ((x :: xs).length == 0) = false := by simp
          simp only [computeFirstSeqGo, firstSeqClaimGo, hty', hf, Bool.false_eq_true,
            if_false, Option.getD_some, hlen]
          split
          · exact ih _ (fun e he => hterm e (by simp [he]))
          · rfl

/-- C6 (amended): for a nonempty lookahead and β whose terminal symbols
have nonempty values, `computeFirstSeqBetaA` returns exactly the walk
the claim describes — `{a}` for empty β, and otherwise the left-to-right
walk that adds a terminal and stops, adds a nonterminal's FIRST minus
epsilon and continues only if that nonterminal is nullable, adding `a`
exactly when every symbol of β is nullable.  (The source guards
`if (a)` and `if (v)` silently drop empty-string symbols, hence the
hypotheses.) -/
theorem computeFirstSeqBetaA_matches_claim (beta : List BNFElement) (a : String)
    (fs : FirstSet) (ha : a ≠ "")
    (hterm : ∀ el ∈ beta, el.type = .terminal → el.value ≠ "") :
    computeFirstSeqBetaA beta a fs "ε" = firstSeqClaim beta a fs "ε" := by
  cases beta with
  | nil => simp [computeFirstSeqBetaA, firstSeqClaim, ha]
  | cons el rest =>
    have hlen : (((el :: rest) : List BNFElement).length == 0) = false := by simp
    simp only [computeFirstSeqBetaA, firstSeqClaim, hlen, Bool.false_eq_true, if_false]
    exact computeFirstSeqGo_eq_claimGo a fs "ε" ha (el :: rest) [] hterm

/-- C6 witness: the amended theorem applied at
β = [nonterminal A], a = "$", FIRST(A) = {a, ε}. -/
theorem computeFirstSeqBetaA_matches_claim_witness :
    computeFirstSeqBetaA [⟨.nonterminal, "A"⟩] "$" [("A", ["a", "ε"])] "ε"
      = firstSeqClaim [⟨.nonterminal, "A"⟩] "$" [("A", ["a", "ε"])] "ε" :=
  computeFirstSeqBetaA_matches_claim [⟨.nonterminal, "A"⟩] "$" [("A", ["a", "ε"])]
    (by decide) (by decide)

/-- C6 counterexample: for empty β the claim demands exactly `{a}`, but
with the empty-string lookahead (the value the `LRItem` constructor
defaults to) the source's `if (a)` guard drops it and the function
returns the empty set. -/
theorem computeFirstSeqBetaA_empty_lookahead_dropped :
    computeFirstSeqBetaA [] "" ([] : FirstSet) "ε" = [] ∧
    firstSeqClaim [] "" ([] : FirstSet) "ε" = [""] :=
  ⟨rfl, rfl⟩

/-- C7 (code bug, evaluated at the failing input): `parseRawBnf`'s
ε branch (`element.setType("terminal"); element.setValue("")`) is
unconditionally overwritten by the final `else` of the following
`if/else if` chain, so the bare epsilon symbol is classified as a
nonterminal with value `"ε"` — not as the terminal with empty value
that the code's own comment (`εは空集合を表す`) and the specification
describe. -/
theorem classifySymbol_epsilon_nonterminal :
    classifySymbol "ε" = .ok ⟨.nonterminal, "ε"⟩ ∧
    BNFElement.mk .nonterminal "ε" ≠ ⟨.terminal, ""⟩ :=
  ⟨rfl, by decide⟩

/-! ## LR items and automaton state keys
(`interface/lrItem.ts`, `interface/itemSet.ts`, `interface/lr1ItemSet.ts`) -/

structure LRItem where
  concatenation : BNFConcatenation
  dotPosition : Nat := 0
  lookahead : String := ""
deriving DecidableEq, Repr

def LRItem.advance (i : LRItem) : LRItem :=
  { i with dotPosition := i.dotPosition + 1 }

/-- `getDotNextElement`: `getElementAt` returns `undefined` past the
end, modelled by `Option`. -/
def LRItem.getDotNextElement (i : LRItem) : Option BNFElement :=
  i.concatenation.elements[i.dotPosition]?

def BNFElemType.str : BNFElemType → String
  | .terminal => "terminal"
  | .nonterminal => "nonterminal"

/-- `BNFElement.getHash()` pre-image `` `${type}|${value}|${wildcard}` ``
(wildcard is always `""`); SHA-256 is modelled as injective. -/
def BNFElement.hashStr (e : BNFElement) : String :=
  e.type.str ++ "|" ++ e.value ++ "|"

/-- `BNFConcatenation.getHash()` pre-image
`` `${left}|${elementHashes.join(",")}` ``. -/
def BNFConcatenation.hashStr (c : BNFConcatenation) : String :=
  c.left ++ "|" ++ String.intercalate "," (c.elements.map BNFElement.hashStr)

/-- `LRItem.getHash()`: `` `${concatenation.getHash()}|${dotPosition}` ``
— the item core, independent of the lookahead. -/
def LRItem.hashStr (i : LRItem) : String :=
  i.concatenation.hashStr ++ "|" ++ toString i.dotPosition

/-- The LR(1) full key `` `${item.getHash()}|LA:${item.getLookahead()}` ``. -/
def LRItem.fullKeyStr (i : LRItem) : String :=
  i.hashStr ++ "|LA:" ++ i.lookahead

/-- The LR(0) candidate-state key of `LRItemSets.calcClosure`
(`itemSet.ts`): `nItemList.map(item => item.getHash()).join(",")` — the
item hashes in list order, with no sorting.  (SHA-256 outputs are
fixed-length and comma-free, so the joined string is represented by the
list of hashes.)  `nodeHash` merges a candidate into an existing state
exactly when this key is equal. -/
def lr0ItemsKey (items : List LRItem) : List String :=
  items.map LRItem.hashStr

/-- The LR(1) candidate-state key of `LR1ItemSets.itemsKey`
(`lr1ItemSet.ts`): the full keys (core plus lookahead), sorted, then
joined.  JS `Array.sort()` on the hash strings is modelled by sorting
the key strings. -/
def lr1ItemsKey (items : List LRItem) : List String :=
  List.insertionSort (· ≤ ·) (items.map LRItem.fullKeyStr)

/-- C4 (amended, LR(1) half): the LR(1) builder merges two candidate
item lists exactly when their (core, lookahead) keys agree as a
multiset — the sorted key is insertion-order independent and determines
the key multiset. -/
theorem lr1ItemsKey_perm_iff (l l' : List LRItem) :
    (l.map LRItem.fullKeyStr).Perm (l'.map LRItem.fullKeyStr) ↔
      lr1ItemsKey l = lr1ItemsKey l' := by
  constructor
  · intro h
    exact List.eq_of_perm_of_sorted
      ((List.perm_insertionSort _ _).trans (h.trans (List.perm_insertionSort _ _).symm))
      (List.sorted_insertionSort _ _) (List.sorted_insertionSort _ _)
  · intro h
    have h1 := (List.perm_insertionSort (· ≤ ·) (l.map LRItem.fullKeyStr)).symm
    have h2 := List.perm_insertionSort (· ≤ ·) (l'.map LRItem.fullKeyStr)
    rw [show List.insertionSort (· ≤ ·) (l.map LRItem.fullKeyStr) = lr1ItemsKey l from rfl,
      h] at h1
    exact h1.trans h2

def c4Item1 : LRItem := ⟨⟨"A", [⟨.terminal, "a"⟩]⟩, 0, ""⟩

def c4Item2 : LRItem := ⟨⟨"B", [⟨.terminal, "b"⟩]⟩, 0, ""⟩

/-- C4 counterexample (LR(0) half): the LR(0) builder's candidate key is
the item-hash list in insertion order — two candidates holding the same
item multiset in different orders get different keys, so `calcClosure`'s
`nodeHash` would not merge them; LR(0) state identity is not computed
from sorted item keys. -/
theorem lr0ItemsKey_order_dependent :
    (lr0ItemsKey [c4Item1, c4Item2]).Perm (lr0ItemsKey [c4Item2, c4Item1]) ∧
    lr0ItemsKey [c4Item1, c4Item2] ≠ lr0ItemsKey [c4Item2, c4Item1] :=
  ⟨by decide, by decide⟩

/-! ## Transition table and actions (`interface/transitionTable.ts`) -/

inductive ConflictEntry
  | prod (c : BNFConcatenation)
  | state (n : Nat)
  | null
deriving DecidableEq, Repr

inductive Action
  | shift (toState : Nat)
  | reduce (byProd : BNFConcatenation)
  | accept
  | conflict (list : List ConflictEntry)
deriving DecidableEq, Repr

structure TransitionTableRow where
  state : Nat
  actions : List (String × Action)
  gotos : List (String × Nat)
deriving DecidableEq, Repr

abbrev TransitionTable := List TransitionTableRow

/-! ## The shift-reduce parse driver (`parseProgram.ts`) -/

structure Token where
  kind : String
  text : String
deriving DecidableEq, Repr

inductive ParseTreeNode
  | node (symbol : String) (children : List ParseTreeNode)

/-- `ParseLogs` entries: the driver pushes either a structured
`{tree, state, token}` snapshot or a raw diagnostic string. -/
inductive ParseLogEntry
  | str (s : String)
  | log (tree : ParseTreeNode) (state : Nat) (token : String)

def missingRowMsg (st : String) : String :=
  "状態" ++ st ++ "に対応するテーブル行が存在しません。"

def missingActionMsg (st : Nat) (tok : String) : String :=
  "状態" ++ toString st ++ "でトークン\x27" ++ tok ++ "\x27に対するアクションが存在しません。"

def missingGotoMsg (st : Nat) (nt : String) : String :=
  "状態" ++ toString st ++ "で非終端記号\x27" ++ nt ++ "\x27に対する遷移が存在しません。"

def symbolStackEmptyMsg : String := "記号スタックが空です。"

def unknownActionMsg : String := "未知のアクションタイプです。"

def gotosTypeErrorMsg : String :=
  "TypeError: Cannot read properties of undefined (reading \x27gotos\x27)"

/-- The current token's type: `program[index].kind`, or the end marker
`"$"` once the input is exhausted. -/
def currentTokenType (program : List Token) (index : Nat) : String :=
  match program[index]? with
  | some tok => tok.kind
  | none => "$"

/-- The driver's mutable state at the top of the `while (true)` loop.
Both stacks keep their top element at the head. -/
structure DriverState where
  stack : List Nat
  symbolStack : List ParseTreeNode
  logs : List ParseLogEntry
  index : Nat

inductive HaltCause
  | missingRow
  | missingAction
  | missingGoto
  | accepted
  | unknownAction
deriving DecidableEq, Repr

inductive StepResult
  | next (s : DriverState)
  | halted (s : DriverState) (cause : HaltCause)
  | threw (msg : String)

/-- One iteration of `parseProgram`'s loop.  `threw` models the
uncaught JS exceptions: the explicit
`throw new Error("記号スタックが空です。")` when `symbolStack.pop()`
returns `undefined`, and the `TypeError` that
`table[currentState].gotos` raises when the exposed state has no table
row. -/
def parseStep (table : TransitionTable) (program : List Token) (s : DriverState) :
    StepResult :=
  let tokType := currentTokenType program s.index
  match s.stack.head? with
  | none =>
    -- The state stack can only empty inside a throwing reduce, so this
    -- arm is unreachable; JS would read `table[undefined]` (undefined)
    -- and halt with the row diagnostic for state "undefined".
    .halted { s with logs := s.logs ++ [.str (missingRowMsg "undefined")] } .missingRow
  | some currentState =>
    match table[currentState]? with
    | none =>
      .halted { s with logs := s.logs ++ [.str (missingRowMsg (toString currentState))] }
        .missingRow
    | some tableRow =>
      match alistGet tableRow.actions tokType with
      | none =>
        .halted { s with logs := s.logs ++ [.str (missingActionMsg currentState tokType)] }
          .missingAction
      | some (.shift toState) =>
        let newSymbolStack := ParseTreeNode.node tokType [] :: s.symbolStack
        .next { stack := toState :: s.stack
                symbolStack := newSymbolStack
                logs := s.logs ++
                  [.log (.node "ROOT" newSymbolStack.reverse) currentState tokType]
                index := s.index + 1 }
      | some (.reduce p) =>
        let k := p.elements.length
        if k ≤ s.symbolStack.length then
          let newSymbolStack :=
            ParseTreeNode.node p.left (s.symbolStack.take k).reverse :: s.symbolStack.drop k
          let poppedStack := s.stack.drop k
          match poppedStack.head? with
          | none => .threw gotosTypeErrorMsg
          | some exposedState =>
            match table[exposedState]? with
            | none => .threw gotosTypeErrorMsg
            | some exposedRow =>
              match alistGet exposedRow.gotos p.left with
              | none =>
                .halted { stack := poppedStack
                          symbolStack := newSymbolStack
                          logs := s.logs ++ [.str (missingGotoMsg exposedState p.left)]
                          index := s.index } .missingGoto
              | some gotoState =>
                .next { stack := gotoState :: poppedStack
                        symbolStack := newSymbolStack
                        logs := s.logs ++
                          [.log (.node "ROOT" newSymbolStack.reverse) exposedState p.left]
                        index := s.index }
        else .threw symbolStackEmptyMsg
      | some .accept =>
        .halted { s with logs := s.logs ++
          [.log (.node "ROOT" s.symbolStack.reverse) currentState tokType] } .accepted
      | some (.conflict _) =>
        .halted { s with logs := s.logs ++ [.str unknownActionMsg] } .unknownAction

inductive RunResult
  | finished (s : DriverState) (cause : HaltCause)
  | threw (msg : String)
  | running (s : DriverState)

/-- Iterating the loop on fuel (the source's `while (true)` has no
bound; `running` marks fuel exhaustion, never reachable behaviour of the
source). -/
def parseRun (table : TransitionTable) (program : List Token) :
    Nat → DriverState → RunResult
  | 0, s => .running s
  | fuel + 1, s =>
    match parseStep table program s with
    | .next s' => parseRun table program fuel s'
    | .halted s' c => .finished s' c
    | .threw m => .threw m

def initialDriverState : DriverState := ⟨[0], [], [], 0⟩

/-- The fix-up after the loop: when the symbol stack does not hold
exactly one tree, the last structured log entry (if any) is replaced by
one wrapping the remaining forest under a synthetic ROOT; a trailing
diagnostic string is left untouched. -/
def parsePostProcess (s : DriverState) : List ParseLogEntry :=
  if s.symbolStack.length != 1 then
    match s.logs.getLast? with
    | some (.log _ st tok) =>
      s.logs.dropLast ++ [.log (.node "ROOT" s.symbolStack.reverse) st tok]
    | _ => s.logs
  else s.logs

inductive ParseOutcome
  | ok (log : List ParseLogEntry)
  | exn (msg : String)
  | timeout

/-- `parseProgram(program, table).log`, on fuel. -/
def parseProgram (program : List Token) (table : TransitionTable) (fuel : Nat) :
    ParseOutcome :=
  match parseRun table program fuel initialDriverState with
  | .finished s _ => .ok (parsePostProcess s)
  | .threw m => .exn m
  | .running _ => .timeout

/-- The next step is a reduce that pops more entries than the symbol
stack holds (the one situation in which the driver's loop throws). -/
def stepUnderflows (table : TransitionTable) (program : List Token) (s : DriverState) :
    Bool :=
  match s.stack.head? with
  | none => false
  | some st =>
    match table[st]? with
    | none => false
    | some row =>
      match alistGet row.actions (currentTokenType program s.index) with
      | some (.reduce p) => decide (s.symbolStack.length < p.elements.length)
      | _ => false

/-- No reduce along the (fuel-bounded) run underflows the symbol
stack. -/
def runNoUnderflow (table : TransitionTable) (program : List Token) :
    Nat → DriverState → Bool
  | 0, _ => true
  | fuel + 1, s =>
    !stepUnderflows table program s &&
      (match parseStep table program s with
       | .next s' => runNoUnderflow table program fuel s'
       | _ => true)

/-- Loop invariant: the state stack is one deeper than the symbol
stack, and every state below the top has a table row. -/
def DriverInv (table : TransitionTable) (s : DriverState) : Prop :=
  s.stack.length = s.symbolStack.length + 1 ∧ ∀ q ∈ s.stack.tail, q < table.length

lemma parseStep_no_throw (table : TransitionTable) (program : List Token)
    (s : DriverState) (hInv : DriverInv table s)
    (hUF : stepUnderflows table program s = false) :
    ∀ m, parseStep table program s ≠ .threw m := by
  intro m
  unfold parseStep
  cases hh : s.stack.head? with
  | none => simp
  | some st =>
    cases hrow : table[st]? with
    | none => simp [hrow]
    | some row =>
      simp only [hrow]
      cases hact : alistGet row.actions (currentTokenType program s.index) with
      | none => simp
      | some a =>
        cases a with
        | shift t => simp
        | accept => simp
        | conflict l => simp
        | reduce p =>
          have hk : p.elements.length ≤ s.symbolStack.length := by
            unfold stepUnderflows at hUF
            simp only [hh, hrow, hact] at hUF
            simpa using hUF
          simp only [hk, if_pos]
          rw [List.head?_drop]
          obtain ⟨tl, hstack⟩ : ∃ tl, s.stack = st :: tl := by
            cases hs : s.stack with
            | nil => rw [hs] at hh; exact Option.noConfusion hh
            | cons x xs =>
              rw [hs] at hh
              simp at hh
              exact ⟨xs, by rw [hh]⟩
          cases hps : s.stack[p.elements.length]? with
          | none =>
            exfalso
            have := List.getElem?_eq_none_iff.mp hps
            rw [hInv.1] at this
            omega
          | some exposed =>
            have hexp : ∃ r2, table[exposed]? = some r2 := by
              cases hpe : p.elements.length with
              | zero =>
                rw [hpe, ← List.head?_eq_getElem?, hh] at hps
                injection hps with hps
                rw [← hps]
                exact ⟨row, hrow⟩
              | succ n =>
                have hmem : exposed ∈ tl := by
                  rw [hpe, hstack, List.getElem?_cons_succ] at hps
                  exact List.getElem?_mem hps
                have htail : exposed ∈ s.stack.tail := by
                  rw [hstack]; exact hmem
                exact ⟨_, List.getElem?_eq_getElem (hInv.2 exposed htail)⟩
            obtain ⟨r2, hr2⟩ := hexp
            simp only [hr2]
            cases hgoto : alistGet r2.gotos p.left <;> simp [hgoto]

lemma lt_length_of_getElem?_eq_some {α : Type} {l : List α} {n : Nat} {a : α}
    (h : l[n]? = some a) : n < l.length := by
  by_contra hn
  rw [List.getElem?_eq_none (Nat.le_of_not_lt hn)] at h
  exact Option.noConfusion h

lemma parseStep_next_inv (table : TransitionTable) (program : List Token)
    (s s' : DriverState) (hInv : DriverInv table s)
    (h : parseStep table program s = .next s') :
    DriverInv table s' := by
  unfold parseStep at h
  cases hh : s.stack.head? with
  | none => simp only [hh] at h; exact StepResult.noConfusion h
  | some st =>
    simp only [hh] at h
    obtain ⟨tl, hstack⟩ : ∃ tl, s.stack = st :: tl := by
      cases hs : s.stack with
      | nil => rw [hs] at hh; exact Option.noConfusion hh
      | cons x xs =>
        rw [hs] at hh
        simp at hh
        exact ⟨xs, by rw [hh]⟩
    cases hrow : table[st]? with
    | none => simp only [hrow] at h; exact StepResult.noConfusion h
    | some row =>
      simp only [hrow] at h
      have hst : st < table.length := lt_length_of_getElem?_eq_some hrow
      have hmemstack : ∀ q ∈ s.stack, q < table.length := by
        intro q hq
        rw [hstack] at hq
        rcases List.mem_cons.mp hq with rfl | hq
        · exact hst
        · exact hInv.2 q (by rw [hstack]; exact hq)
      cases hact : alistGet row.actions (currentTokenType program s.index) with
      | none => simp only [hact] at h; exact StepResult.noConfusion h
      | some a =>
        simp only [hact] at h
        cases a with
        | accept => exact StepResult.noConfusion h
        | conflict l => exact StepResult.noConfusion h
        | shift t =>
          simp only [StepResult.next.injEq] at h
          subst h
          refine ⟨by simp [hInv.1], ?_⟩
          intro q hq
          exact hmemstack q hq
        | reduce p =>
          by_cases hk : p.elements.length ≤ s.symbolStack.length
          · simp only [if_pos hk] at h
            cases hps : (s.stack.drop p.elements.length).head? with
            | none => simp only [hps] at h; exact StepResult.noConfusion h
            | some exposed =>
              simp only [hps] at h
              cases hr2 : table[exposed]? with
              | none => simp only [hr2] at h; exact StepResult.noConfusion h
              | some r2 =>
                simp only [hr2] at h
                cases hgoto : alistGet r2.gotos p.left with
                | none => simp only [hgoto] at h; exact StepResult.noConfusion h
                | some g =>
                  simp only [hgoto] at h
                  simp only [StepResult.next.injEq] at h
                  subst h
                  constructor
                  · simp only [List.length_cons, List.length_drop, hInv.1]
                    omega
                  · intro q hq
                    simp only [List.tail_cons] at hq
                    exact hmemstack q (List.drop_subset _ _ hq)
          · simp only [if_neg hk] at h
            exact StepResult.noConfusion h

lemma parseRun_no_throw (table : TransitionTable) (program : List Token) :
    ∀ (fuel : Nat) (s : DriverState), DriverInv table s →
      runNoUnderflow table program fuel s = true →
      ∀ m, parseRun table program fuel s ≠ .threw m := by
  intro fuel
  induction fuel with
  | zero => intro s _ _ m; simp [parseRun]
  | succ n ih =>
    intro s hInv hUF m
    unfold runNoUnderflow at hUF
    simp only [Bool.and_eq_true, Bool.not_eq_true'] at hUF
    unfold parseRun
    cases hstep : parseStep table program s with
    | threw m' => exact absurd hstep (parseStep_no_throw table program s hInv hUF.1 m')
    | halted s' c => simp
    | next s' =>
      have hUF2 := hUF.2
      rw [hstep] at hUF2
      exact ih s' (parseStep_next_inv table program s s' hInv hstep) hUF2 m

lemma parseStep_halted_missing (table : TransitionTable) (program : List Token)
    (s s' : DriverState) (c : HaltCause)
    (h : parseStep table program s = .halted s' c)
    (hc : c = .missingRow ∨ c = .missingAction ∨ c = .missingGoto) :
    ∃ m, s'.logs = s.logs ++ [.str m] ∧
      ((∃ st, m = missingRowMsg st) ∨ (∃ st tok, m = missingActionMsg st tok) ∨
       (∃ st nt, m = missingGotoMsg st nt)) := by
  unfold parseStep at h
  cases hh : s.stack.head? with
  | none =>
    simp only [hh, StepResult.halted.injEq] at h
    rw [← h.1]
    exact ⟨missingRowMsg "undefined", rfl, Or.inl ⟨"undefined", rfl⟩⟩
  | some st =>
    simp only [hh] at h
    cases hrow : table[st]? with
    | none =>
      simp only [hrow, StepResult.halted.injEq] at h
      rw [← h.1]
      exact ⟨missingRowMsg (toString st), rfl, Or.inl ⟨toString st, rfl⟩⟩
    | some row =>
      simp only [hrow] at h
      cases hact : alistGet row.actions (currentTokenType program s.index) with
      | none =>
        simp only [hact, StepResult.halted.injEq] at h
        rw [← h.1]
        exact ⟨missingActionMsg st (currentTokenType program s.index), rfl,
          Or.inr (Or.inl ⟨st, currentTokenType program s.index, rfl⟩)⟩
      | some a =>
        simp only [hact] at h
        cases a with
        | shift t => exact StepResult.noConfusion h
        | accept =>
          simp only [StepResult.halted.injEq] at h
          rcases hc with rfl | rfl | rfl <;> exact absurd h.2.symm (by simp)
        | conflict l =>
          simp only [StepResult.halted.injEq] at h
          rcases hc with rfl | rfl | rfl <;> exact absurd h.2.symm (by simp)
        | reduce p =>
          by_cases hk : p.elements.length ≤ s.symbolStack.length
          · simp only [if_pos hk] at h
            cases hps : (s.stack.drop p.elements.length).head? with
            | none => simp only [hps] at h; exact StepResult.noConfusion h
            | some exposed =>
              simp only [hps] at h
              cases hr2 : table[exposed]? with
              | none => simp only [hr2] at h; exact StepResult.noConfusion h
              | some r2 =>
                simp only [hr2] at h
                cases hgoto : alistGet r2.gotos p.left with
                | none =>
                  simp only [hgoto, StepResult.halted.injEq] at h
                  rw [← h.1]
                  exact ⟨missingGotoMsg exposed p.left, rfl,
                    Or.inr (Or.inr ⟨exposed, p.left, rfl⟩)⟩
                | some g =>
                  simp only [hgoto] at h
                  exact StepResult.noConfusion h
          · simp only [if_neg hk] at h
            exact StepResult.noConfusion h

lemma parseRun_finished_missing (table : TransitionTable) (program : List Token) :
    ∀ (fuel : Nat) (s s' : DriverState) (c : HaltCause),
      parseRun table program fuel s = .finished s' c →
      (c = .missingRow ∨ c = .missingAction ∨ c = .missingGoto) →
      ∃ l m, s'.logs = l ++ [.str m] ∧
        ((∃ st, m = missingRowMsg st) ∨ (∃ st tok, m = missingActionMsg st tok) ∨
         (∃ st nt, m = missingGotoMsg st nt)) := by
  intro fuel
  induction fuel with
  | zero => intro s s' c h _; simp [parseRun] at h
  | succ n ih =>
    intro s s' c h hc
    unfold parseRun at h
    cases hstep : parseStep table program s with
    | threw m' => rw [hstep] at h; exact RunResult.noConfusion h
    | next s1 =>
      rw [hstep] at h
      exact ih s1 s' c h hc
    | halted s1 c1 =>
      rw [hstep] at h
      simp only [RunResult.finished.injEq] at h
      obtain ⟨rfl, rfl⟩ := h
      obtain ⟨m, hm, hkinds⟩ := parseStep_halted_missing table program s s1 c1 hstep hc
      exact ⟨s.logs, m, hm, hkinds⟩

lemma parsePostProcess_last_str (s : DriverState) (l : List ParseLogEntry) (m : String)
    (h : s.logs = l ++ [.str m]) :
    (parsePostProcess s).getLast? = some (.str m) := by
  unfold parsePostProcess
  rw [h]
  have hlast : (l ++ [ParseLogEntry.str m]).getLast? = some (ParseLogEntry.str m) := by
    simp
  split
  · rw [hlast]
    exact hlast
  · exact hlast

/-- C1 (amended): as long as no reduce step pops more entries than the
symbol stack holds, the driver never throws; and whenever the loop halts
because the table row, the action for the current (state, token), or the
goto for the current (state, nonterminal) is missing, the returned trace
is everything accumulated so far with a diagnostic string identifying
the state and the symbol as its last element.  (Unconditionally the
claim is false: a reduce whose right-hand side is longer than the symbol
stack throws — see the counterexample — and an ε-cycle of reduces need
not terminate, which is why the statement is fuel-indexed.) -/
theorem parseProgram_halts_gracefully (program : List Token) (table : TransitionTable)
    (fuel : Nat)
    (hNoUF : runNoUnderflow table program fuel initialDriverState = true) :
    (∀ m, parseProgram program table fuel ≠ .exn m) ∧
    (∀ s c, parseRun table program fuel initialDriverState = .finished s c →
      (c = .missingRow ∨ c = .missingAction ∨ c = .missingGoto) →
      parseProgram program table fuel = .ok (parsePostProcess s) ∧
      ∃ m, (parsePostProcess s).getLast? = some (.str m) ∧
        ((∃ st, m = missingRowMsg st) ∨ (∃ st tok, m = missingActionMsg st tok) ∨
         (∃ st nt, m = missingGotoMsg st nt))) := by
  have hInv : DriverInv table initialDriverState := by
    refine ⟨rfl, ?_⟩
    intro q hq
    simp [initialDriverState] at hq
  constructor
  · intro m hcontra
    unfold parseProgram at hcontra
    cases hrun : parseRun table program fuel initialDriverState with
    | finished s c => rw [hrun] at hcontra; exact ParseOutcome.noConfusion hcontra
    | running s => rw [hrun] at hcontra; exact ParseOutcome.noConfusion hcontra
    | threw mt =>
      exact parseRun_no_throw table program fuel initialDriverState hInv hNoUF mt hrun
  · intro s c hrun hc
    refine ⟨by unfold parseProgram; rw [hrun], ?_⟩
    obtain ⟨l, m, hm, hkinds⟩ :=
      parseRun_finished_missing table program fuel initialDriverState s c hrun hc
    exact ⟨m, parsePostProcess_last_str s l m hm, hkinds⟩

def c1WitnessTable : TransitionTable := [⟨0, [], []⟩]

/-- C1 witness: the amended theorem applied to the one-row table with no
actions and the empty input — the run halts on the missing action for
`(0, "$")` and the trace ends with that diagnostic. -/
theorem parseProgram_halts_gracefully_witness :
    parseProgram [] c1WitnessTable 3 ≠ .exn symbolStackEmptyMsg ∧
    parseProgram [] c1WitnessTable 3
      = .ok (parsePostProcess ⟨[0], [], [.str (missingActionMsg 0 "$")], 0⟩) :=
  ⟨(parseProgram_halts_gracefully [] c1WitnessTable 3 rfl).1 symbolStackEmptyMsg,
   ((parseProgram_halts_gracefully [] c1WitnessTable 3 rfl).2
      ⟨[0], [], [.str (missingActionMsg 0 "$")], 0⟩ .missingAction rfl
      (Or.inr (Or.inl rfl))).1⟩

def c1ThrowProd : BNFConcatenation := ⟨"A", [⟨.terminal, "a"⟩]⟩

def c1ThrowTable : TransitionTable := [⟨0, [("$", .reduce c1ThrowProd)], []⟩]

/-- C1 counterexample: with the table whose state 0 reduces by
`A -> 'a'` on `"$"` and the empty token sequence, the very first loop
iteration pops the empty symbol stack and the driver throws
`記号スタックが空です。` — it does not halt gracefully, refuting the
claim for arbitrary transition tables. -/
theorem parseProgram_throws_on_underflow :
    parseProgram [] c1ThrowTable 5 = .exn symbolStackEmptyMsg := rfl

/-- C9: a shift trace entry records the state that was on top of the
state stack before the destination was pushed, and a reduce trace entry
records the state exposed after popping the right-hand side and before
pushing the goto state; in both cases the newly entered destination
state (the new stack top) is not the recorded state whenever the two
differ. -/
theorem trace_records_pre_transition_state (table : TransitionTable)
    (program : List Token) (s : DriverState) :
    (∀ st row toState,
      s.stack.head? = some st →
      table[st]? = some row →
      alistGet row.actions (currentTokenType program s.index) = some (.shift toState) →
      ∃ s' tree,
        parseStep table program s = .next s' ∧
        s'.stack.head? = some toState ∧
        s'.logs = s.logs ++ [.log tree st (currentTokenType program s.index)] ∧
        (toState ≠ st → st ≠ toState)) ∧
    (∀ st row p exposed row2 g,
      s.stack.head? = some st →
      table[st]? = some row →
      alistGet row.actions (currentTokenType program s.index) = some (.reduce p) →
      p.elements.length ≤ s.symbolStack.length →
      (s.stack.drop p.elements.length).head? = some exposed →
      table[exposed]? = some row2 →
      alistGet row2.gotos p.left = some g →
      ∃ s' tree,
        parseStep table program s = .next s' ∧
        s'.stack.head? = some g ∧
        s'.logs = s.logs ++ [.log tree exposed p.left] ∧
        (g ≠ exposed → exposed ≠ g)) := by
  constructor
  · intro st row toState hh hrow hact
    refine ⟨⟨toState :: s.stack,
        ParseTreeNode.node (currentTokenType program s.index) [] :: s.symbolStack,
        s.logs ++ [.log (.node "ROOT"
          (ParseTreeNode.node (currentTokenType program s.index) [] :: s.symbolStack).reverse)
          st (currentTokenType program s.index)],
        s.index + 1⟩,
      .node "ROOT"
        (ParseTreeNode.node (currentTokenType program s.index) [] :: s.symbolStack).reverse,
      ?_, rfl, rfl, fun hne => Ne.symm hne⟩
    unfold parseStep
    simp only [hh, hrow, hact]
  · intro st row p exposed row2 g hh hrow hact hk hps hr2 hgoto
    refine ⟨⟨g :: s.stack.drop p.elements.length,
        ParseTreeNode.node p.left (s.symbolStack.take p.elements.length).reverse ::
          s.symbolStack.drop p.elements.length,
        s.logs ++ [.log (.node "ROOT"
          (ParseTreeNode.node p.left (s.symbolStack.take p.elements.length).reverse ::
            s.symbolStack.drop p.elements.length).reverse) exposed p.left],
        s.index⟩,
      .node "ROOT"
        (ParseTreeNode.node p.left (s.symbolStack.take p.elements.length).reverse ::
          s.symbolStack.drop p.elements.length).reverse,
      ?_, rfl, rfl, fun hne => Ne.symm hne⟩
    unfold parseStep
    simp only [hh, hrow, hact, if_pos hk, hps, hr2, hgoto]

def c9Prod : BNFConcatenation := ⟨"S", [⟨.terminal, "a"⟩]⟩

def c9Table : TransitionTable :=
  [⟨0, [("a", .shift 1)], [("S", 2)]⟩, ⟨1, [("$", .reduce c9Prod)], []⟩]

def c9Program : List Token := [⟨"a", "a"⟩]

def c9ReduceState : DriverState := ⟨[1, 0], [.node "a" []], [], 1⟩

/-- C9 witness: the trace-state theorem applied to a concrete table — a
shift from state 0 to state 1 records state 0, and a reduce exposing
state 0 before pushing goto state 2 records state 0. -/
theorem trace_records_pre_transition_state_witness :
    (∃ s' tree, parseStep c9Table c9Program initialDriverState = .next s' ∧
      s'.stack.head? = some 1 ∧
      s'.logs = [.log tree 0 "a"] ∧ (1 ≠ 0 → 0 ≠ 1)) ∧
    (∃ s' tree, parseStep c9Table c9Program c9ReduceState = .next s' ∧
      s'.stack.head? = some 2 ∧
      s'.logs = [.log tree 0 "S"] ∧ (2 ≠ 0 → 0 ≠ 2)) :=
  ⟨(trace_records_pre_transition_state c9Table c9Program initialDriverState).1
      0 ⟨0, [("a", .shift 1)], [("S", 2)]⟩ 1 rfl rfl rfl,
   (trace_records_pre_transition_state c9Table c9Program c9ReduceState).2
      1 ⟨1, [("$", .reduce c9Prod)], []⟩ c9Prod 0 ⟨0, [("a", .shift 1)], [("S", 2)]⟩ 2
      rfl rfl rfl (by decide) rfl rfl rfl⟩

/-! ## LR(0) transition-table builder (`makeTable.ts`) -/

/-- `getStartSymbol` of the table builders: prefer `` S` ``, then `S`,
else throw. -/
def getStartSymbolE (bnfSet : BNFSet) : Except String String :=
  if bnfSet.hasNonTerminal "S`" then .ok "S`"
  else if bnfSet.hasNonTerminal "S" then .ok "S"
  else .error "BNF定義が空です。"

/-- An LR(0) item-set state as the table builder consumes it. -/
structure LRItemSet where
  items : List LRItem
deriving DecidableEq, Repr

/-- Modelled from the spec: the `lr0ItemSet.ts` that `makeTable.ts`
imports (with `hasItem`) is not in the repository snapshot; the spec
keys LR(0) items by their structural hash (production plus dot
position), so membership is hash equality of the item core. -/
def LRItemSet.hasItemL0 (s : LRItemSet) (item : LRItem) : Bool :=
  s.items.any (fun i => i.hashStr == item.hashStr)

/-- A colliding action handed to `replaceConflict`
(`{ type: "shift" | "reduce"; by: ... }`). -/
inductive IncomingAction
  | shift (toState : Nat)
  | reduce (byProd : BNFConcatenation)
deriving DecidableEq, Repr

def incomingEntry : IncomingAction → ConflictEntry
  | .shift n => .state n
  | .reduce p => .prod p

/-- `replaceConflict` of `makeTable.ts` (lines 29-60): if the cell holds
a non-accept action, append the incoming entry to an existing conflict
list (with NO duplicate check), or escalate a shift/reduce to a
two-entry conflict.  An `accept` cell (or an empty cell) is left
untouched. -/
def lr0ReplaceConflict (row : TransitionTableRow) (incoming : IncomingAction)
    (terminal : String) : TransitionTableRow :=
  match alistGet row.actions terminal with
  | none => row
  | some .accept => row
  | some (.conflict l) =>
    { row with actions :=
        alistSet row.actions terminal (.conflict (l ++ [incomingEntry incoming])) }
  | some (.shift n) =>
    { row with actions :=
        alistSet row.actions terminal (.conflict [.state n, incomingEntry incoming]) }
  | some (.reduce q) =>
    { row with actions :=
        alistSet row.actions terminal (.conflict [.prod q, incomingEntry incoming]) }

/-- One iteration of the per-terminal reduce loop of `makeTable.ts`
(lines 118-130): an occupied non-accept cell is conflict-merged; an
empty — or accept-holding — cell is assigned `Reduce(p)`. -/
def lr0ReduceTerminalStep (p : BNFConcatenation) (row : TransitionTableRow)
    (terminal : String) : TransitionTableRow :=
  match alistGet row.actions terminal with
  | none => { row with actions := alistSet row.actions terminal (.reduce p) }
  | some .accept => { row with actions := alistSet row.actions terminal (.reduce p) }
  | some _ => lr0ReplaceConflict row (.reduce p) terminal

/-- The reduce fill of a completed item: every grammar terminal, then
`"$"` if still empty (lines 115-135). -/
def lr0FillReduces (bnfSet : BNFSet) (row : TransitionTableRow) (p : BNFConcatenation) :
    TransitionTableRow :=
  let row1 := bnfSet.getAllTerminals.foldl (lr0ReduceTerminalStep p) row
  match alistGet row1.actions "$" with
  | none => { row1 with actions := alistSet row1.actions "$" (.reduce p) }
  | some _ => row1

/-- Processing one item of a state in `makeTransitionTable`
(`itemSet.getItems().forEach(...)`, lines 62-139). -/
def lr0ApplyItem (lrItemSets : List LRItemSet) (bnfSet : BNFSet) (startSymbol : String)
    (row : TransitionTableRow) (item : LRItem) : Except String TransitionTableRow :=
  match item.getDotNextElement with
  | some dotNext =>
    match jsFindIndex (fun st => st.hasItemL0 item.advance) lrItemSets with
    | none => .error "次の状態が見つかりません。"
    | some nextState =>
      if dotNext.type == .terminal then
        match alistGet row.actions dotNext.value with
        | some _ => .ok (lr0ReplaceConflict row (.shift nextState) dotNext.value)
        | none =>
          .ok { row with actions := alistSet row.actions dotNext.value (.shift nextState) }
      else
        .ok { row with gotos := alistSet row.gotos dotNext.value nextState }
  | none =>
    if item.concatenation.left == startSymbol then
      .ok { row with actions := alistSet row.actions "$" .accept }
    else
      match alistGet row.actions "$" with
      | some .accept => .ok (lr0FillReduces bnfSet row item.concatenation)
      | some _ => .ok (lr0ReplaceConflict row (.reduce item.concatenation) "$")
      | none => .ok (lr0FillReduces bnfSet row item.concatenation)

/-- `makeTransitionTable(lrItemSets, bnfSet)` (thrown errors modelled
with `Except`). -/
def makeTransitionTable (lrItemSets : List LRItemSet) (bnfSet : BNFSet) :
    Except String TransitionTable :=
  match getStartSymbolE bnfSet with
  | .error e => .error e
  | .ok startSymbol =>
    lrItemSets.enum.mapM fun pair =>
      pair.2.items.foldlM (lr0ApplyItem lrItemSets bnfSet startSymbol) ⟨pair.1, [], []⟩


/-! ## LR(1) transition-table builders (`makeTableLR1.ts` and the
symbol-grouped variant) -/

/-- `eqConcat` (`makeTableLR1.ts` line 17, and `helper/table.ts` used by
the grouped variant):
`a === b || a?.equals?.(b) || a?.toString?.() === b?.toString?.()`.
`BNFConcatenation` defines neither `equals` nor `toString` anywhere in
the repository snapshot, so the middle probe is `undefined` and the
fallback compares the default `Object.prototype.toString` renderings —
`"[object Object]" === "[object Object]"`, constant true for any two
productions. -/
def jsObjectToString (_ : BNFConcatenation) : String := "[object Object]"

def eqConcat (a b : BNFConcatenation) : Bool :=
  a == b || jsObjectToString a == jsObjectToString b

/-- The element-wise test of `conflictPushUnique`'s `has` scan: numbers
compare with `===`, non-numbers with `eqConcat`, mixed kinds are
unequal. -/
def conflictHas : ConflictEntry → IncomingAction → Bool
  | .state n, .shift m => n == m
  | .prod a, .reduce b => eqConcat a b
  | _, _ => false

/-- `conflictPushUnique(list, v)`: push unless an equal entry is already
present. -/
def conflictPushUnique (l : List ConflictEntry) (v : IncomingAction) :
    List ConflictEntry :=
  if l.any (fun x => conflictHas x v) then l else l ++ [incomingEntry v]

/-- `replaceConflict` of `makeTableLR1.ts` (lines 69-88): empty or
accept cells untouched; an incoming action identical to the existing
shift/reduce is ignored; a conflict cell gets `conflictPushUnique`; a
differing shift/reduce escalates to a conflict seeded with the existing
entry. -/
def lr1EscalateCell (row : TransitionTableRow) (terminal : String)
    (seed : List ConflictEntry) (incoming : IncomingAction) : TransitionTableRow :=
  { row with actions :=
      alistSet row.actions terminal (.conflict (conflictPushUnique seed incoming)) }

def lr1ReplaceConflict (row : TransitionTableRow) (terminal : String)
    (incoming : IncomingAction) : TransitionTableRow :=
  match alistGet row.actions terminal, incoming with
  | none, _ => row
  | some .accept, _ => row
  | some (.shift n), .shift m =>
    if n == m then row else lr1EscalateCell row terminal [.state n] incoming
  | some (.shift n), .reduce _ => lr1EscalateCell row terminal [.state n] incoming
  | some (.reduce q), .reduce p =>
    if eqConcat q p then row else lr1EscalateCell row terminal [.prod q] incoming
  | some (.reduce q), .shift _ => lr1EscalateCell row terminal [.prod q] incoming
  | some (.conflict l), _ => lr1EscalateCell row terminal l incoming

/-- Idempotent shift assignment (`setShift`). -/
def setShift (row : TransitionTableRow) (terminal : String) (toSt : Nat) :
    TransitionTableRow :=
  match alistGet row.actions terminal with
  | none => { row with actions := alistSet row.actions terminal (.shift toSt) }
  | some (.shift n) =>
    if n == toSt then row else lr1ReplaceConflict row terminal (.shift toSt)
  | some _ => lr1ReplaceConflict row terminal (.shift toSt)

/-- Idempotent reduce assignment (`setReduce`); `isLoose` (the
symbol-grouped variant's SHIFT-preference mode) silently keeps an
existing shift.  `makeTableLR1.ts`'s `setReduce` is the
`isLoose = false` instance. -/
def setReduce (row : TransitionTableRow) (terminal : String) (byp : BNFConcatenation)
    (isLoose : Bool) : TransitionTableRow :=
  match alistGet row.actions terminal with
  | none => { row with actions := alistSet row.actions terminal (.reduce byp) }
  | some (.shift _) =>
    if isLoose then row else lr1ReplaceConflict row terminal (.reduce byp)
  | some (.reduce q) =>
    if eqConcat q byp then row else lr1ReplaceConflict row terminal (.reduce byp)
  | some _ => lr1ReplaceConflict row terminal (.reduce byp)

/-- An LR(1) item-set state: items plus the recorded goto edges. -/
structure LR1ItemSet where
  items : List LRItem
  gotos : List (String × Nat) := []
deriving DecidableEq, Repr

/-- `LR1ItemSet.hasItem`: membership by full key (core plus
lookahead). -/
def LR1ItemSet.hasItem (s : LR1ItemSet) (item : LRItem) : Bool :=
  s.items.any (fun i => i.fullKeyStr == item.fullKeyStr)

/-- `findNextStateIndex` (`makeTableLR1.ts` lines 47-66).  The second
probe (`hasCoreItem`) never matches — no item-set class in the
repository defines that method — and in the last-resort probe
`it.getConcatenation().equals?.(...)` is `undefined`, so `??` falls back
to comparing default `Object.prototype.toString` renderings, which are
always equal: only the dot positions filter. -/
def findNextStateIndex (sets : List LR1ItemSet) (advanced : LRItem) : Option Nat :=
  match jsFindIndex (fun s => s.hasItem advanced) sets with
  | some idx => some idx
  | none =>
    jsFindIndex (fun s => s.items.any (fun it => it.dotPosition == advanced.dotPosition))
      sets

/-- `getLookaheadSet`: `LRItem` has a single-string `getLookahead`, and
`one == null` is loosely false even for `""`, so the result is always
the singleton of the item's own lookahead. -/
def getLookaheadSet (item : LRItem) : List String := [item.lookahead]

/-- Processing one item of a state in `makeTransitionTableLR1`
(`makeTableLR1.ts` lines 124-168). -/
def lr1ApplyItem (sets : List LR1ItemSet) (startSymbol : String)
    (row : TransitionTableRow) (item : LRItem) : Except String TransitionTableRow :=
  match item.getDotNextElement with
  | some dotNext =>
    match findNextStateIndex sets item.advance with
    | none => .error "次の状態が見つかりません。"
    | some nextState =>
      if dotNext.type == .terminal then .ok (setShift row dotNext.value nextState)
      else
        match alistGet row.gotos dotNext.value with
        | none => .ok { row with gotos := alistSet row.gotos dotNext.value nextState }
        | some _ => .ok row  -- goto collision only warns
  | none =>
    if item.concatenation.left == startSymbol then
      .ok { row with actions := alistSet row.actions "$" .accept }
    else
      let lookaheads := getLookaheadSet item
      if lookaheads.length == 0 then .ok row
      else .ok (lookaheads.foldl (fun r t => setReduce r t item.concatenation false) row)

/-- `makeTransitionTableLR1(lrItemSets, bnfSet)`. -/
def makeTransitionTableLR1 (sets : List LR1ItemSet) (bnfSet : BNFSet) :
    Except String TransitionTable :=
  match getStartSymbolE bnfSet with
  | .error e => .error e
  | .ok startSymbol =>
    sets.enum.mapM fun pair =>
      pair.2.items.foldlM (lr1ApplyItem sets startSymbol) ⟨pair.1, [], []⟩

/-- `hasCoreItem` of the symbol-grouped variant: core match by
production hash plus dot position. -/
def hasCoreItem (s : LR1ItemSet) (advanced : LRItem) : Bool :=
  s.items.any (fun it =>
    it.concatenation.hashStr == advanced.concatenation.hashStr &&
      it.dotPosition == advanced.dotPosition)

/-- The candidate states of `findGotoStateForGroup`: indices of states
containing all advanced cores, in index order. -/
def gotoCandidates (allSets : List LR1ItemSet) (groupAdvanced : List LRItem) :
    List Nat :=
  ((allSets.enum).filter (fun pair => groupAdvanced.all (hasCoreItem pair.2))).map (·.1)

/-- `findGotoStateForGroup` (symbol-grouped variant, lines 55-73): a
unique candidate is taken, no candidate throws, several candidates take
`Math.min`. -/
def findGotoStateForGroup (allSets : List LR1ItemSet) (groupAdvanced : List LRItem) :
    Except String Nat :=
  match gotoCandidates allSets groupAdvanced with
  | [c] => .ok c
  | [] => .error "goto 先状態が見つかりません（カーネル一致なし）"
  | c :: rest => .ok (rest.foldl Nat.min c)

/-- The grouped variant's goto resolution (lines 150-154): consult the
state's own recorded goto edge first, fall back to the global scan. -/
def groupGotoState (itemSet : LR1ItemSet) (allSets : List LR1ItemSet) (v : String)
    (groupAdvanced : List LRItem) : Except String Nat :=
  match alistGet itemSet.gotos v with
  | some g => .ok g
  | none => findGotoStateForGroup allSets groupAdvanced


lemma alistGet_set_self {α : Type} (l : List (String × α)) (k : String) (v : α) :
    alistGet (alistSet l k v) k = some v := by
  induction l with
  | nil => simp [alistSet, alistGet]
  | cons p rest ih =>
    by_cases h : p.1 = k
    · simp [alistSet, alistGet, h]
    · simp only [alistSet]
      rw [show (p.1 == k) = false by simp [h]]
      simpa [alistGet, h] using ih

lemma alistGet_set_ne {α : Type} (l : List (String × α)) (k k' : String) (v : α)
    (h : k' ≠ k) : alistGet (alistSet l k v) k' = alistGet l k' := by
  induction l with
  | nil => simp [alistSet, alistGet, Ne.symm h]
  | cons p rest ih =>
    by_cases hp : p.1 = k
    · subst hp
      simp only [alistSet, beq_self_eq_true, if_pos]
      simp [alistGet, Ne.symm h]
    · simp only [alistSet]
      rw [show (p.1 == k) = false by simp [hp]]
      by_cases hp' : p.1 = k'
      · simp [alistGet, hp']
      · simp only [alistGet, List.find?]
        rw [show (p.1 == k') = false by simp [hp']]
        exact ih

/-- `lr0ReplaceConflict` touches only its terminal's action cell, and no
gotos. -/
lemma lr0ReplaceConflict_other (row : TransitionTableRow) (inc : IncomingAction)
    (t u : String) (h : u ≠ t) :
    alistGet (lr0ReplaceConflict row inc t).actions u = alistGet row.actions u := by
  unfold lr0ReplaceConflict
  cases hx : alistGet row.actions t with
  | none => rfl
  | some a => cases a <;> simp [alistGet_set_ne _ _ _ _ h]

lemma lr0ReduceTerminalStep_other (p : BNFConcatenation) (row : TransitionTableRow)
    (t u : String) (h : u ≠ t) :
    alistGet (lr0ReduceTerminalStep p row t).actions u = alistGet row.actions u := by
  unfold lr0ReduceTerminalStep
  cases hx : alistGet row.actions t with
  | none => simp [alistGet_set_ne _ _ _ _ h]
  | some a =>
    cases a <;> simp [alistGet_set_ne _ _ _ _ h, lr0ReplaceConflict_other _ _ _ _ h]

def actionHasReduce (a : Option Action) (p : BNFConcatenation) : Prop :=
  a = some (.reduce p) ∨ ∃ l, a = some (.conflict l) ∧ ConflictEntry.prod p ∈ l

lemma lr0ReduceTerminalStep_self (p : BNFConcatenation) (row : TransitionTableRow)
    (t : String) :
    actionHasReduce (alistGet (lr0ReduceTerminalStep p row t).actions t) p := by
  unfold lr0ReduceTerminalStep actionHasReduce
  cases hx : alistGet row.actions t with
  | none => left; simp [alistGet_set_self]
  | some a =>
    cases a with
    | accept => left; simp [alistGet_set_self]
    | shift n =>
      right
      refine ⟨[.state n, .prod p], ?_, by simp⟩
      unfold lr0ReplaceConflict
      rw [hx]
      simp [alistGet_set_self, incomingEntry]
    | reduce q =>
      right
      refine ⟨[.prod q, .prod p], ?_, by simp⟩
      unfold lr0ReplaceConflict
      rw [hx]
      simp [alistGet_set_self, incomingEntry]
    | conflict l =>
      right
      refine ⟨l ++ [.prod p], ?_, by simp⟩
      unfold lr0ReplaceConflict
      rw [hx]
      simp [alistGet_set_self, incomingEntry]

lemma lr0Fold_other (p : BNFConcatenation) :
    ∀ (ts : List String) (row : TransitionTableRow) (u : String), u ∉ ts →
      alistGet ((ts.foldl (lr0ReduceTerminalStep p) row)).actions u
        = alistGet row.actions u := by
  intro ts
  induction ts with
  | nil => intro row u _; rfl
  | cons t rest ih =>
    intro row u hu
    simp only [List.foldl_cons]
    rw [ih (lr0ReduceTerminalStep p row t) u (fun hmem => hu (List.mem_cons_of_mem t hmem))]
    exact lr0ReduceTerminalStep_other p row t u (fun he => hu (he ▸ List.mem_cons_self t rest))

lemma lr0Fold_mem (p : BNFConcatenation) :
    ∀ (ts : List String) (row : TransitionTableRow), ts.Nodup →
      ∀ t ∈ ts, actionHasReduce
        (alistGet ((ts.foldl (lr0ReduceTerminalStep p) row)).actions t) p := by
  intro ts
  induction ts with
  | nil => intro row _ t ht; exact absurd ht (List.not_mem_nil t)
  | cons t0 rest ih =>
    intro row hnd t ht
    simp only [List.foldl_cons]
    rcases List.mem_cons.mp ht with rfl | hmem
    · rw [lr0Fold_other p rest (lr0ReduceTerminalStep p row t) t
        (by exact (List.nodup_cons.mp hnd).1)]
      exact lr0ReduceTerminalStep_self p row t
    · exact ih (lr0ReduceTerminalStep p row t0) (List.nodup_cons.mp hnd).2 t hmem

/-- C2 (amended): processing a completed item `A -> w•`, provided the
`"$"` cell is still empty and `"$"` is not itself a grammar terminal:
if `A` is not the start symbol a Reduce by the item's production is
entered (directly, or merged into the cell's conflict list) under every
terminal of the grammar and under `"$"`; if `A` is the start symbol,
Accept is entered under `"$"`.  (When the `"$"` cell already holds a
non-accept action the per-terminal loop is skipped entirely — see the
counterexample.) -/
theorem lr0_completed_item_cells (sets : List LRItemSet) (bnf : BNFSet) (start : String)
    (row : TransitionTableRow) (item : LRItem)
    (hdot : item.getDotNextElement = none) :
    (item.concatenation.left ≠ start → alistGet row.actions "$" = none →
      "$" ∉ bnf.getAllTerminals →
      ∃ row', lr0ApplyItem sets bnf start row item = .ok row' ∧
        (∀ t ∈ bnf.getAllTerminals,
          actionHasReduce (alistGet row'.actions t) item.concatenation) ∧
        actionHasReduce (alistGet row'.actions "$") item.concatenation) ∧
    (item.concatenation.left = start →
      ∃ row', lr0ApplyItem sets bnf start row item = .ok row' ∧
        alistGet row'.actions "$" = some .accept) := by
  have hnodup : bnf.getAllTerminals.Nodup := List.nodup_dedup _
  constructor
  · intro hleft hdollar hnds
    have happ : lr0ApplyItem sets bnf start row item
        = .ok (lr0FillReduces bnf row item.concatenation) := by
      unfold lr0ApplyItem
      rw [hdot]
      rw [show (item.concatenation.left == start) = false by simp [hleft]]
      simp only [Bool.false_eq_true, if_false, hdollar]
    refine ⟨lr0FillReduces bnf row item.concatenation, happ, ?_, ?_⟩
    · intro t ht
      have htne : t ≠ "$" := fun he => hnds (he ▸ ht)
      unfold lr0FillReduces
      cases hd : alistGet ((bnf.getAllTerminals).foldl
          (lr0ReduceTerminalStep item.concatenation) row).actions "$" with
      | none =>
        simp only [hd]
        rw [alistGet_set_ne _ _ _ _ htne]
        exact lr0Fold_mem _ _ _ hnodup t ht
      | some a =>
        simp only [hd]
        exact lr0Fold_mem _ _ _ hnodup t ht
    · unfold lr0FillReduces
      have hd : alistGet ((bnf.getAllTerminals).foldl
          (lr0ReduceTerminalStep item.concatenation) row).actions "$" = none := by
        rw [lr0Fold_other item.concatenation bnf.getAllTerminals row "$" hnds]
        exact hdollar
      simp only [hd]
      left
      simp [alistGet_set_self]
  · intro hleft
    refine ⟨{ row with actions := alistSet row.actions "$" .accept }, ?_, ?_⟩
    · unfold lr0ApplyItem
      rw [hdot, show (item.concatenation.left == start) = true by simp [hleft]]
      simp
    · simp [alistGet_set_self]


def c2WitGrammar : BNFSet := ⟨[⟨"S", [⟨"S", [⟨.terminal, "a"⟩]⟩], 0⟩]⟩

def c2WitItem : LRItem := ⟨⟨"A", [⟨.terminal, "x"⟩]⟩, 1, ""⟩

def c2WitStartItem : LRItem := ⟨⟨"S", [⟨.terminal, "a"⟩]⟩, 1, ""⟩

/-- C2 witness: the amended theorem applied to the grammar `S -> 'a'`
with an empty row — the completed item `A -> 'x'•` reduce-fills the
terminal `'a'` and `"$"`, and the completed start item enters Accept
under `"$"`. -/
theorem lr0_completed_item_cells_witness :
    (∃ row', lr0ApplyItem [] c2WitGrammar "S" ⟨0, [], []⟩ c2WitItem = .ok row' ∧
      (∀ t ∈ c2WitGrammar.getAllTerminals,
        actionHasReduce (alistGet row'.actions t) c2WitItem.concatenation) ∧
      actionHasReduce (alistGet row'.actions "$") c2WitItem.concatenation) ∧
    (∃ row', lr0ApplyItem [] c2WitGrammar "S" ⟨0, [], []⟩ c2WitStartItem = .ok row' ∧
      alistGet row'.actions "$" = some .accept) :=
  ⟨(lr0_completed_item_cells [] c2WitGrammar "S" ⟨0, [], []⟩ c2WitItem rfl).1
      (by decide) rfl (by decide),
   (lr0_completed_item_cells [] c2WitGrammar "S" ⟨0, [], []⟩ c2WitStartItem rfl).2 rfl⟩

def c2ProdS : BNFConcatenation := ⟨"S", [⟨.terminal, "$"⟩]⟩

def c2ProdA : BNFConcatenation := ⟨"A", [⟨.terminal, "x"⟩]⟩

def c2Grammar : BNFSet := ⟨[⟨"S", [c2ProdS], 0⟩, ⟨"A", [c2ProdA], 1⟩]⟩

def c2Sets : List LRItemSet :=
  [⟨[⟨c2ProdS, 0, ""⟩, ⟨c2ProdA, 1, ""⟩]⟩, ⟨[⟨c2ProdS, 1, ""⟩]⟩]

/-- C2 counterexample: state 0 contains the completed item `A -> 'x'•`
with `A` not the start symbol, yet the built table's row 0 has NO action
at all under the grammar terminal `'x'`: the `"$"` cell already held the
shift on `'$'`, so `makeTable.ts` line 104's early `return` skipped the
whole per-terminal reduce loop and only conflict-merged the `"$"`
cell. -/
theorem lr0_reduce_loop_skipped_counterexample :
    makeTransitionTable c2Sets c2Grammar = .ok
      [⟨0, [("$", .conflict [.state 1, .prod c2ProdA])], []⟩,
       ⟨1, [("$", .accept)], []⟩] ∧
    (⟨c2ProdA, 1, ""⟩ : LRItem) ∈ (c2Sets.headD ⟨[]⟩).items ∧
    (⟨c2ProdA, 1, ""⟩ : LRItem).getDotNextElement = none ∧
    getStartSymbolE c2Grammar = .ok "S" ∧
    c2ProdA.left ≠ "S" ∧
    "x" ∈ c2Grammar.getAllTerminals ∧
    alistGet [(("$" : String), Action.conflict [.state 1, .prod c2ProdA])] "x" = none :=
  ⟨rfl, by decide, rfl, rfl, by decide, by decide, rfl⟩

lemma lr1EscalateCell_other (row : TransitionTableRow) (t : String)
    (seed : List ConflictEntry) (inc : IncomingAction) (u : String) (h : u ≠ t) :
    alistGet (lr1EscalateCell row t seed inc).actions u = alistGet row.actions u := by
  unfold lr1EscalateCell
  exact alistGet_set_ne _ _ _ _ h

lemma lr1ReplaceConflict_other (row : TransitionTableRow) (t : String)
    (inc : IncomingAction) (u : String) (h : u ≠ t) :
    alistGet (lr1ReplaceConflict row t inc).actions u = alistGet row.actions u := by
  cases hx : alistGet row.actions t with
  | none => cases inc <;> simp only [lr1ReplaceConflict, hx]
  | some a =>
    cases a <;> cases inc <;> simp only [lr1ReplaceConflict, hx] <;> (try split) <;>
      (first
        | rfl
        | exact lr1EscalateCell_other row t _ _ u h)

lemma lr1EscalateCell_gotos (row : TransitionTableRow) (t : String)
    (seed : List ConflictEntry) (inc : IncomingAction) :
    (lr1EscalateCell row t seed inc).gotos = row.gotos := rfl

lemma lr1ReplaceConflict_gotos (row : TransitionTableRow) (t : String)
    (inc : IncomingAction) : (lr1ReplaceConflict row t inc).gotos = row.gotos := by
  cases hx : alistGet row.actions t with
  | none => cases inc <;> simp only [lr1ReplaceConflict, hx]
  | some a =>
    cases a <;> cases inc <;> simp only [lr1ReplaceConflict, hx] <;> (try split) <;> rfl

lemma setReduce_other (row : TransitionTableRow) (t : String) (byp : BNFConcatenation)
    (loose : Bool) (u : String) (h : u ≠ t) :
    alistGet (setReduce row t byp loose).actions u = alistGet row.actions u := by
  cases hx : alistGet row.actions t with
  | none => simp only [setReduce, hx]; exact alistGet_set_ne _ _ _ _ h
  | some a =>
    cases a <;> simp only [setReduce, hx] <;> (try split) <;>
      (first
        | rfl
        | exact lr1ReplaceConflict_other row t _ u h)

lemma setReduce_gotos (row : TransitionTableRow) (t : String) (byp : BNFConcatenation)
    (loose : Bool) : (setReduce row t byp loose).gotos = row.gotos := by
  cases hx : alistGet row.actions t with
  | none => simp only [setReduce, hx]
  | some a =>
    cases a <;> simp only [setReduce, hx] <;> (try split) <;>
      (first
        | rfl
        | exact lr1ReplaceConflict_gotos row t _)

lemma setReduce_fresh (row : TransitionTableRow) (t : String) (byp : BNFConcatenation)
    (loose : Bool) (h : alistGet row.actions t = none) :
    alistGet (setReduce row t byp loose).actions t = some (.reduce byp) := by
  simp only [setReduce, h]
  exact alistGet_set_self _ _ _

/-- C3: in the LR(1) table builder a completed item whose left-hand
symbol is not the start symbol performs exactly one `setReduce` at its
own lookahead terminal; `setReduce` writes no other action cell and no
goto cell, and on an empty cell it writes `Reduce` by the item's
production. -/
theorem lr1_reduce_only_own_lookahead (sets : List LR1ItemSet) (start : String)
    (row : TransitionTableRow) (item : LRItem)
    (hdot : item.getDotNextElement = none)
    (hleft : item.concatenation.left ≠ start) :
    lr1ApplyItem sets start row item
      = .ok (setReduce row item.lookahead item.concatenation false) ∧
    (∀ (loose : Bool) (byp : BNFConcatenation) (t u : String), u ≠ t →
      alistGet (setReduce row t byp loose).actions u = alistGet row.actions u) ∧
    (∀ (loose : Bool) (byp : BNFConcatenation) (t : String),
      (setReduce row t byp loose).gotos = row.gotos) ∧
    (∀ (loose : Bool) (byp : BNFConcatenation) (t : String),
      alistGet row.actions t = none →
      alistGet (setReduce row t byp loose).actions t = some (.reduce byp)) := by
  refine ⟨?_, fun loose byp t u h => setReduce_other row t byp loose u h,
    fun loose byp t => setReduce_gotos row t byp loose,
    fun loose byp t h => setReduce_fresh row t byp loose h⟩
  unfold lr1ApplyItem
  rw [hdot]
  rw [show (item.concatenation.left == start) = false by simp [hleft]]
  simp [getLookaheadSet]

def c3WitProd : BNFConcatenation := ⟨"A", [⟨.terminal, "a"⟩]⟩

def c3WitItem : LRItem := ⟨c3WitProd, 1, "b"⟩

/-- C3 witness: the completed LR(1) item `[A -> 'a'•, b]` writes Reduce
only into the `"b"` cell of an empty row; the `"x"` cell stays
untouched. -/
theorem lr1_reduce_only_own_lookahead_witness :
    lr1ApplyItem [] "S" ⟨0, [], []⟩ c3WitItem
      = .ok (setReduce ⟨0, [], []⟩ "b" c3WitProd false) ∧
    alistGet (setReduce (⟨0, [], []⟩ : TransitionTableRow) "b" c3WitProd false).actions "x"
      = alistGet (⟨0, [], []⟩ : TransitionTableRow).actions "x" ∧
    alistGet (setReduce (⟨0, [], []⟩ : TransitionTableRow) "b" c3WitProd false).actions "b"
      = some (.reduce c3WitProd) :=
  ⟨(lr1_reduce_only_own_lookahead [] "S" ⟨0, [], []⟩ c3WitItem rfl (by decide)).1,
   (lr1_reduce_only_own_lookahead [] "S" ⟨0, [], []⟩ c3WitItem rfl (by decide)).2.1
      false c3WitProd "b" "x" (by decide),
   (lr1_reduce_only_own_lookahead [] "S" ⟨0, [], []⟩ c3WitItem rfl (by decide)).2.2.2
      false c3WitProd "b" rfl⟩

lemma jsFindIndex_some_spec {α : Type} (p : α → Bool) :
    ∀ (l : List α) (i : Nat), jsFindIndex p l = some i →
      (∃ x, l[i]? = some x ∧ p x = true) ∧
      (∀ j, j < i → ∀ x, l[j]? = some x → p x = false) := by
  intro l
  induction l with
  | nil => intro i h; exact Option.noConfusion h
  | cons a rest ih =>
    intro i h
    by_cases hp : p a
    · simp only [jsFindIndex] at h
      rw [if_pos hp] at h
      injection h with h
      subst h
      exact ⟨⟨a, by simp, hp⟩, fun j hj => absurd hj (Nat.not_lt_zero j)⟩
    · simp only [jsFindIndex] at h
      rw [if_neg hp] at h
      obtain ⟨i', hi', rfl⟩ := Option.map_eq_some'.mp h
      obtain ⟨⟨x, hx, hpx⟩, hlt⟩ := ih i' hi'
      refine ⟨⟨x, by simpa using hx, hpx⟩, ?_⟩
      intro j hj y hy
      cases j with
      | zero =>
        simp only [List.getElem?_cons_zero] at hy
        injection hy with hy
        subst hy
        simp [hp]
      | succ j' =>
        exact hlt j' (by omega) y (by simpa using hy)

lemma foldl_min_mem_le :
    ∀ (rest : List Nat) (c : Nat),
      rest.foldl Nat.min c ∈ c :: rest ∧ ∀ x ∈ c :: rest, rest.foldl Nat.min c ≤ x := by
  intro rest
  induction rest with
  | nil => intro c; exact ⟨by simp, by simp⟩
  | cons b bs ih =>
    intro c
    obtain ⟨hmem, hle⟩ := ih (Nat.min c b)
    constructor
    · simp only [List.foldl_cons]
      rcases List.mem_cons.mp hmem with hm | hm
      · rcases Nat.le_total c b with hcb | hbc
        · rw [hm, show Nat.min c b = c from Nat.min_eq_left hcb]
          exact List.mem_cons_self _ _
        · rw [hm, show Nat.min c b = b from Nat.min_eq_right hbc]
          exact List.mem_cons_of_mem _ (List.mem_cons_self _ _)
      · exact List.mem_cons_of_mem _ (List.mem_cons_of_mem _ hm)
    · intro x hx
      simp only [List.foldl_cons]
      rcases List.mem_cons.mp hx with rfl | hx'
      · exact Nat.le_trans (hle _ (List.mem_cons_self _ _)) (Nat.min_le_left _ _)
      · rcases List.mem_cons.mp hx' with rfl | hx'' 
        · exact Nat.le_trans (hle _ (List.mem_cons_self _ _)) (Nat.min_le_right _ _)
        · exact hle x (List.mem_cons_of_mem _ hx'')

lemma findGotoStateForGroup_cons (allSets : List LR1ItemSet) (group : List LRItem)
    (c : Nat) (rest : List Nat) (h : gotoCandidates allSets group = c :: rest) :
    findGotoStateForGroup allSets group = .ok (rest.foldl Nat.min c) := by
  cases rest with
  | nil => simp [findGotoStateForGroup, h]
  | cons b bs => simp [findGotoStateForGroup, h]

/-- C10 (amended): resolving the destination state of a shift or goto.
The LR(0) builder scans the state array in index order, takes the
lowest-indexed state containing the advanced item (`findIndex`), and
throws `次の状態が見つかりません。` when none matches.
`makeTableLR1.ts`'s `findNextStateIndex` likewise takes the
lowest-indexed state containing the advanced item when one exists — but
when NO state contains it, it does not throw: its last-resort probe's
production comparison degenerates (no `equals` method, and `??` falls
back to the always-equal default `toString` renderings), so it returns
the lowest-indexed state containing any item with the advanced item's
dot position, and the builder throws only when that fallback also finds
nothing.  The symbol-grouped LR(1) variant first consults the state's
recorded goto edge, and only falls back to scanning: a unique candidate
containing all advanced cores is taken, several candidates take the
minimum index, none throws. -/
theorem next_state_resolution :
    (∀ {α : Type} (p : α → Bool) (l : List α) (i : Nat), jsFindIndex p l = some i →
      (∃ x, l[i]? = some x ∧ p x = true) ∧
      (∀ j, j < i → ∀ x, l[j]? = some x → p x = false)) ∧
    (∀ (sets : List LRItemSet) (bnf : BNFSet) (start : String) (row : TransitionTableRow)
       (item : LRItem) (el : BNFElement), item.getDotNextElement = some el →
      jsFindIndex (fun st => st.hasItemL0 item.advance) sets = none →
      lr0ApplyItem sets bnf start row item = .error "次の状態が見つかりません。") ∧
    (∀ (sets : List LR1ItemSet) (adv : LRItem) (i : Nat),
      jsFindIndex (fun s => s.hasItem adv) sets = some i →
      findNextStateIndex sets adv = some i) ∧
    (∀ (sets : List LR1ItemSet) (adv : LRItem),
      jsFindIndex (fun s => s.hasItem adv) sets = none →
      findNextStateIndex sets adv
        = jsFindIndex
            (fun s => s.items.any (fun it => it.dotPosition == adv.dotPosition)) sets) ∧
    (∀ (sets : List LR1ItemSet) (start : String) (row : TransitionTableRow)
       (item : LRItem) (el : BNFElement), item.getDotNextElement = some el →
      findNextStateIndex sets item.advance = none →
      lr1ApplyItem sets start row item = .error "次の状態が見つかりません。") ∧
    (∀ (itemSet : LR1ItemSet) (allSets : List LR1ItemSet) (v : String)
       (group : List LRItem) (g : Nat), alistGet itemSet.gotos v = some g →
      groupGotoState itemSet allSets v group = .ok g) ∧
    (∀ (itemSet : LR1ItemSet) (allSets : List LR1ItemSet) (v : String)
       (group : List LRItem), alistGet itemSet.gotos v = none →
      (gotoCandidates allSets group = [] →
        groupGotoState itemSet allSets v group
          = .error "goto 先状態が見つかりません（カーネル一致なし）") ∧
      (∀ c rest, gotoCandidates allSets group = c :: rest →
        ∃ m, groupGotoState itemSet allSets v group = .ok m ∧
          m ∈ gotoCandidates allSets group ∧
          ∀ x ∈ gotoCandidates allSets group, m ≤ x)) := by
  refine ⟨fun p l i h => jsFindIndex_some_spec p l i h, ?_, ?_, ?_, ?_, ?_, ?_⟩
  · intro sets bnf start row item el hdot hfind
    unfold lr0ApplyItem
    rw [hdot, hfind]
  · intro sets adv i h
    unfold findNextStateIndex
    rw [h]
  · intro sets adv h
    unfold findNextStateIndex
    rw [h]
  · intro sets start row item el hdot hfind
    unfold lr1ApplyItem
    rw [hdot, hfind]
  · intro itemSet allSets v group g h
    unfold groupGotoState
    rw [h]
  · intro itemSet allSets v group h
    constructor
    · intro hcand
      unfold groupGotoState
      rw [h]
      unfold findGotoStateForGroup
      rw [hcand]
    · intro c rest hcand
      refine ⟨rest.foldl Nat.min c, ?_, ?_, ?_⟩
      · unfold groupGotoState
        rw [h]
        exact findGotoStateForGroup_cons allSets group c rest hcand
      · rw [hcand]
        exact (foldl_min_mem_le rest c).1
      · rw [hcand]
        exact (foldl_min_mem_le rest c).2

def c10Prod : BNFConcatenation := ⟨"A", [⟨.terminal, "a"⟩]⟩

def c10Adv : LRItem := ⟨c10Prod, 1, ""⟩

def c10Set : LR1ItemSet := ⟨[c10Adv], []⟩

/-- C10 witness: the resolution theorem applied to concrete states —
`findIndex` returns the lowest matching index, a failed first probe
delegates to the dot-position fallback scan, missing states produce the
internal errors, and the grouped variant uses the recorded goto edge,
the unique/minimal candidate, or throws. -/
theorem next_state_resolution_witness :
    (∃ x, [1, 2, 3][1]? = some x ∧ (x == 2) = true) ∧
    lr0ApplyItem [] emptyBNFSet "S" ⟨0, [], []⟩ ⟨c10Prod, 0, ""⟩
      = .error "次の状態が見つかりません。" ∧
    findNextStateIndex [c10Set] c10Adv = some 0 ∧
    findNextStateIndex [⟨[⟨c10Prod, 0, ""⟩], []⟩] ⟨c10Prod, 1, "q"⟩
      = jsFindIndex
          (fun s : LR1ItemSet => s.items.any
            (fun it => it.dotPosition == (⟨c10Prod, 1, "q"⟩ : LRItem).dotPosition))
          ([⟨[⟨c10Prod, 0, ""⟩], []⟩] : List LR1ItemSet) ∧
    lr1ApplyItem [] "S" ⟨0, [], []⟩ ⟨c10Prod, 0, ""⟩
      = .error "次の状態が見つかりません。" ∧
    groupGotoState ⟨[], [("A", 7)]⟩ [] "A" [] = .ok 7 ∧
    groupGotoState ⟨[], []⟩ [] "A" []
      = .error "goto 先状態が見つかりません（カーネル一致なし）" ∧
    (∃ m, groupGotoState ⟨[], []⟩ [c10Set] "A" [⟨c10Prod, 1, "z"⟩] = .ok m ∧
      m ∈ gotoCandidates [c10Set] [⟨c10Prod, 1, "z"⟩] ∧
      ∀ x ∈ gotoCandidates [c10Set] [⟨c10Prod, 1, "z"⟩], m ≤ x) :=
  ⟨(next_state_resolution.1 (· == 2) [1, 2, 3] 1 (by rfl)).1,
   next_state_resolution.2.1 [] emptyBNFSet "S" ⟨0, [], []⟩ ⟨c10Prod, 0, ""⟩
     ⟨.terminal, "a"⟩ rfl rfl,
   next_state_resolution.2.2.1 [c10Set] c10Adv 0 rfl,
   next_state_resolution.2.2.2.1 [⟨[⟨c10Prod, 0, ""⟩], []⟩] ⟨c10Prod, 1, "q"⟩ rfl,
   next_state_resolution.2.2.2.2.1 [] "S" ⟨0, [], []⟩ ⟨c10Prod, 0, ""⟩
     ⟨.terminal, "a"⟩ rfl rfl,
   next_state_resolution.2.2.2.2.2.1 ⟨[], [("A", 7)]⟩ [] "A" [] 7 rfl,
   (next_state_resolution.2.2.2.2.2.2 ⟨[], []⟩ [] "A" [] rfl).1 rfl,
   (next_state_resolution.2.2.2.2.2.2 ⟨[], []⟩ [c10Set] "A" [⟨c10Prod, 1, "z"⟩] rfl).2
     0 [] rfl⟩

def c10FallbackSet : LR1ItemSet := ⟨[⟨⟨"B", [⟨.terminal, "b"⟩]⟩, 1, "y"⟩], []⟩

def c10FallbackAdv : LRItem := ⟨c10Prod, 1, "x"⟩

/-- C10 counterexample: when no state contains the advanced item,
`findNextStateIndex` does not throw the internal error.  Its
last-resort probe compares productions via `equals?.()` — `undefined`,
so `??` falls back to the always-equal default
`Object.prototype.toString` renderings — and only the dot position
filters: the lone state `{[B -> 'b'•, y]}` resolves the advanced item
`[A -> 'a'•, x]` although it contains neither that item nor its core,
and the LR(1) builder records a shift to that state instead of
throwing. -/
theorem findNextStateIndex_fallback_counterexample :
    c10FallbackSet.hasItem c10FallbackAdv = false ∧
    hasCoreItem c10FallbackSet c10FallbackAdv = false ∧
    findNextStateIndex [c10FallbackSet] c10FallbackAdv = some 0 ∧
    lr1ApplyItem [c10FallbackSet] "S" ⟨0, [], []⟩ ⟨c10Prod, 0, "x"⟩
      = .ok (setShift ⟨0, [], []⟩ "a" 0) :=
  ⟨rfl, rfl, rfl, rfl⟩


/-! ## `parseRawBnf` and `getRawBNFWarningThrows` (`parseBnf.ts`, final
variant) and the `MainPage` construction gate -/

/-- Parse one trimmed source line (`lines.forEach` body); `none` for a
skipped empty line.  JS destructuring `[left, right] = parts` yields
`undefined` (falsy, like `""`) for missing components. -/
def parseLine (index : Nat) (line : String) : Except BnfErr (Option BNF) :=
  if line == "" then .ok none
  else
    let parts := (jsSplitArrow line).map jsTrim
    let left := (parts[0]?).getD ""
    let right := (parts[1]?).getD ""
    if left == "" || right == "" then
      .error (.withLine index ("無効な構文定義 行: " ++ line))
    else if left == "ε" then
      .error (.withLine index ("εは左辺に使えません。" ++ line))
    else do
      let rightParts := (jsSplitChar '|' right).map jsTrim
      let rights ← rightParts.mapM (fun part =>
        if jsIncludesChar 'ε' part && jsTrim part != "ε" then
          .error (.withLine index ("右辺にεを含める場合は単独で使ってください: " ++ part))
        else do
          let elements ← (jsSplitWs part).mapM classifySymbol
          pure (⟨left, elements⟩ : BNFConcatenation))
      pure (some ⟨left, rights, index⟩)

/-- `parseRawBnf(bnf)` (the final variant of `parseBnf.ts`, with ε
validation); thrown errors modelled with `Except`. -/
def parseRawBnfE (t : String) : Except BnfErr BNFSet := do
  let lines := (jsSplitChar '\n' t).map jsTrim
  let bnfs ← lines.enum.mapM (fun pair => parseLine pair.1 pair.2)
  pure ⟨bnfs.filterMap id⟩

/-- One diagnostic `{error, line, isError}`.  `error`/`line` are
`Option`s because the catch-all in `getRawBNFWarningThrows` can store
`undefined` / `NaN` (for the one thrown message without a
line prefix — a dead path). -/
structure BNFErrorEntry where
  error : Option String
  line : Option Int
  isError : Bool
deriving DecidableEq, Repr

/-- The regex test `/[^A-Z_]/.test(value)`. -/
def uppercaseViolation (v : String) : Bool :=
  v.data.any (fun c => !(('A' ≤ c && c ≤ 'Z') || c == '_'))

def uppercaseMsg (v : String) : String :=
  "非終端記号 \x27" ++ v ++
    "\x27 は大文字とアンダースコアのみで構成されるべきです。終端記号として使用する場合はシングルクオーテーションで囲んでください。"

def emptyNonterminalMsg : String :=
  "非終端記号が空であることを表現したい場合は\x27ε\x27を使用してください。"

def undefinedNonterminalMsg (v : String) : String :=
  "未定義の非終端記号 \x27" ++ v ++ "\x27 が使用されています。"

def unusedNonterminalMsg (nt : String) : String :=
  "未使用の非終端記号 \x27" ++ nt ++ "\x27 があります。"

def firstRuleMsg : String := "最初の構文定義は\x27S\x27から始まる必要があります。"

/-- The right-hand-side nonterminal values referenced anywhere (a JS
`Set`: insertion order, deduplicated). -/
def referencedNonTerminals (bnfSet : BNFSet) : List String :=
  (bnfSet.bnfs.flatMap (fun bnf => bnf.right.flatMap (fun c =>
    c.elements.filterMap (fun e =>
      if e.type == .nonterminal then some e.value else none)))).dedup

/-- The left-hand names, in rule order, deduplicated
(`definedNonTerminals`). -/
def definedNonTerminals (bnfSet : BNFSet) : List String :=
  (bnfSet.bnfs.map (·.left)).dedup

/-- `nonTerminalsLeftLine`: left name ↦ the rule's recorded source
line (later rules with the same left overwrite the value, as
`Map.set` does). -/
def nonTerminalsLeftLine (bnfSet : BNFSet) : List (String × Nat) :=
  bnfSet.bnfs.foldl (fun m bnf => alistSet m bnf.left bnf.line) []

/-- The per-element checks of the validation pass (`bnfSet.getBNFs()
.forEach((bnf, index) => ...)`): the `index` recorded is the RULE index,
not the source line. -/
def elementWarnings (terminals defined : List String) (index : Nat)
    (e : BNFElement) : Option BNFErrorEntry :=
  if e.type == .nonterminal && uppercaseViolation e.value &&
      !(terminals.contains e.value) && e.value != "ε" then
    some ⟨some (uppercaseMsg e.value), some index, true⟩
  else if e.type == .nonterminal && e.value == "" then
    some ⟨some emptyNonterminalMsg, some index, true⟩
  else if e.type == .nonterminal && !(defined.contains e.value) && e.value != "ε" then
    some ⟨some (undefinedNonterminalMsg e.value), some index, true⟩
  else none

/-- `nonTerminalsLeftLine.get(nt) || -1`: JS `||` also replaces the
falsy line number `0` by `-1`. -/
def jsLineOrNeg1 (o : Option Nat) : Int :=
  match o with
  | some v => if v == 0 then -1 else (v : Int)
  | none => -1

/-- The validation pass run on a parsed grammar (everything of
`getRawBNFWarningThrows` after the `try/catch`). -/
def validateBNFSet (bnfSet : BNFSet) : List BNFErrorEntry :=
  let terminals := (bnfSet.bnfs.flatMap (fun bnf => bnf.right.flatMap (fun c =>
    c.elements.filterMap (fun e =>
      if e.type == .terminal then some e.value else none)))).dedup
  let referenced := referencedNonTerminals bnfSet
  let defined := definedNonTerminals bnfSet
  let elemWs := (bnfSet.bnfs.enum.flatMap (fun pair =>
    pair.2.right.flatMap (fun c =>
      c.elements.filterMap (elementWarnings terminals defined pair.1))))
  let unusedWs := defined.filterMap (fun nt =>
    if nt == "S" then none
    else if referenced.contains nt then none
    else some ⟨some (unusedNonterminalMsg nt),
      some (jsLineOrNeg1 (alistGet (nonTerminalsLeftLine bnfSet) nt)), false⟩)
  let firstWs :=
    match bnfSet.bnfs with
    | [] => []
    | b :: _ => if b.left != "S" then [⟨some firstRuleMsg, some 0, true⟩] else []
  elemWs ++ unusedWs ++ firstWs

/-- `getRawBNFWarningThrows(bhf)`: a parse error is caught and turned
into the leading `isError: true` entry (its `line` parsed back out of
the `` `${index}\n...` `` message; the dead no-prefix message would
store `undefined`/`NaN`), and validation then runs on the empty
grammar. -/
def getRawBNFWarningThrows (t : String) : List BNFErrorEntry :=
  match parseRawBnfE t with
  | .ok s => validateBNFSet s
  | .error (.withLine idx msg) => ⟨some msg, some (idx : Int), true⟩ :: validateBNFSet emptyBNFSet
  | .error (.bare _) => ⟨none, none, true⟩ :: validateBNFSet emptyBNFSet

/-- The `MainPage` construction gate (`MainPage.tsx` line 101):
`bnfWarnings.length === 0 ? parseRawBnf(bnf) : new BNFSet()` — the
automaton builders then run on the resulting grammar. -/
def mainPageBnfSet (t : String) : BNFSet :=
  if (getRawBNFWarningThrows t).length == 0 then
    match parseRawBnfE t with
    | .ok s => s
    | .error _ => emptyBNFSet  -- unreachable: a parse error always leaves a warning
  else emptyBNFSet


/-- C8 (amended): automaton construction is skipped and the system falls
back to the empty grammar exactly when the validation output is
NONEMPTY — any diagnostic, including `isError = false` warnings such as
an unused nonterminal, blocks construction (`bnfWarnings.length === 0`
consults only the count, never the `isError` flag); with no diagnostics
at all, the parsed grammar is used. -/
theorem construction_gate_characterization (t : String) :
    (getRawBNFWarningThrows t ≠ [] → mainPageBnfSet t = emptyBNFSet) ∧
    (getRawBNFWarningThrows t = [] →
      ∃ g, parseRawBnfE t = .ok g ∧ mainPageBnfSet t = g) := by
  constructor
  · intro h
    unfold mainPageBnfSet
    rw [show ((getRawBNFWarningThrows t).length == 0) = false by
      simpa [List.length_eq_zero] using h]
    simp
  · intro h
    cases hp : parseRawBnfE t with
    | ok g =>
      refine ⟨g, rfl, ?_⟩
      unfold mainPageBnfSet
      rw [h, hp]
      rfl
    | error e =>
      exfalso
      unfold getRawBNFWarningThrows at h
      rw [hp] at h
      cases e <;> simp at h

/-- C8 witness: the gate theorem applied to `A -> 'a'` (diagnostics
present, empty-grammar fallback) and `S -> 'a'` (no diagnostics, the
parsed grammar is used). -/
theorem construction_gate_characterization_witness :
    mainPageBnfSet "A -> \x27a\x27" = emptyBNFSet ∧
    (∃ g, parseRawBnfE "S -> \x27a\x27" = .ok g ∧ mainPageBnfSet "S -> \x27a\x27" = g) :=
  ⟨(construction_gate_characterization "A -> \x27a\x27").1 (by decide),
   (construction_gate_characterization "S -> \x27a\x27").2 (by decide)⟩

def c8Text : String := "S -> \x27a\x27\nB -> \x27b\x27"

/-- C8 counterexample: for `S -> 'a'` with an unused nonterminal `B`,
the only diagnostic is an `isError = false` warning, yet the system
falls back to the empty grammar — construction is skipped although no
`isError = true` diagnostic is present, refuting the claimed
"exactly when". -/
theorem warning_blocks_construction :
    getRawBNFWarningThrows c8Text
      = [⟨some (unusedNonterminalMsg "B"), some 1, false⟩] ∧
    (∀ w ∈ getRawBNFWarningThrows c8Text, w.isError = false) ∧
    mainPageBnfSet c8Text = emptyBNFSet ∧
    (∃ g, parseRawBnfE c8Text = .ok g ∧ g ≠ emptyBNFSet) :=
  ⟨rfl, by decide, by decide,
   ⟨(parseRawBnfE c8Text).toOption.getD emptyBNFSet, by rfl, by decide⟩⟩

end LRL
